import Mathlib

/-!
Verification of the clinical-protocol-ai RAG pipeline.

The core Python modules of the repository (text_chunker.py, embeddings.py,
vectordb.py, pdf_loader.py, rag_query.py, backend/main.py,
backend/new_rag_system.py) are reproduced line by line inside the
documentation files of the repository; the definitions below are shallow
embeddings of that code.

Numeric conventions: Python arbitrary-precision ints are modelled as
`Int`/`Nat`; the float formulas (confidence and relevance scores) are
modelled over `ℚ` with exact rational arithmetic.  Page text is modelled
as `List Char`; the Python `str.strip`, slicing (including negative-index
semantics) and the regex scan used by the chunker are modelled explicitly.
-/

/-- Whitespace test matching Python `str.strip()` / regex `\s` on the
ASCII range (the inputs of interest are ASCII). -/
def isWS (c : Char) : Bool :=
  c = ' ' || c = '\t' || c = '\n' || c = '\r' || c = '\x0b' || c = '\x0c'

/-- Terminal punctuation class `[.!?]` of the chunker regex. -/
def isPunct (c : Char) : Bool :=
  c = '.' || c = '!' || c = '?'

/-- Character class `[A-Z]` of the chunker regex lookahead. -/
def isUpperAZ (c : Char) : Bool :=
  'A' ≤ c && c ≤ 'Z'

/-- Python `str.strip()`: drop leading and trailing whitespace. -/
def stripChars (s : List Char) : List Char :=
  ((s.dropWhile isWS).reverse.dropWhile isWS).reverse

/-- Clamp an arbitrary (possibly negative) Python slice index to an
actual list position, following Python slicing rules. -/
def pyIndex (len : Nat) (i : Int) : Nat :=
  if i < 0 then ((len : Int) + i).toNat else min i.toNat len

/-- Python slice `s[a:b]` (with Python negative-index semantics). -/
def pySlice (s : List Char) (a b : Int) : List Char :=
  (s.take (pyIndex s.length b)).drop (pyIndex s.length a)

/-! ## Confidence and relevance formulas

From backend/main.py `extract_key_sections()` and
backend/new_rag_system.py `_find_relevant_sections()` as reproduced in
docs/RAG_QUERY_EXPLAINED.md. -/

/-- `extract_key_sections` confidence (backend/main.py):
`min(0.95, 0.70 + min(0.2, len(sources)*0.04) + min(0.1, len(evidence)*0.02))`. -/
def extraction_confidence (sources evidence : Nat) : ℚ :=
  let base_confidence : ℚ := 0.7
  let source_bonus : ℚ := min 0.2 ((sources : ℚ) * 0.04)
  let evidence_bonus : ℚ := min 0.1 ((evidence : ℚ) * 0.02)
  min 0.95 (base_confidence + source_bonus + evidence_bonus)

/-- `_find_relevant_sections` distance-to-relevance transform:
`max_distance = 1.2; relevance_score = max(0, (max_distance - distance) / max_distance)`. -/
def relevance (distance : ℚ) : ℚ :=
  let max_distance : ℚ := 1.2
  max 0 ((max_distance - distance) / max_distance)

/-- Direct Q&A answer confidence (backend/new_rag_system.py):
`confidence = 1 - results["distances"][0][0]` — the raw top-candidate
distance, with no further processing. -/
def qa_confidence (top_distance : ℚ) : ℚ :=
  1 - top_distance

/-- The wording in the spec of the direct Q&A confidence, for comparison with
`qa_confidence`: `1 − distance_of_top_candidate` clamped to `[0,1]`. -/
def qa_confidence_clamped_spec (top_distance : ℚ) : ℚ :=
  min 1 (max 0 (1 - top_distance))

/-! ## Embedding gateway (embeddings.py `get_embedding`)

`get_embedding` first rejects empty/whitespace-only input
(`if not text or not text.strip(): raise ...`) and only then builds the
prompt `f"search_query: {text.strip()}"` and posts it to the provider.
The model below captures that pre-network phase: `Except.error` is the
raised exception (no request is sent), `Except.ok p` means the HTTP
request with prompt `p` is issued. -/

/-- The role tag `get_embedding` puts in front of every prompt. -/
def queryRoleTag : List Char := "search_query: ".data

/-- The role tag the Segmenter stores in front of the text of every chunk. -/
def docRoleTag : List Char := "search_document: ".data

/-- Pre-network phase of embeddings.py `get_embedding`: validation plus
prompt construction.  `Except.error` models the raised exception (reached
before any request is sent); `Except.ok` carries the prompt that is sent. -/
def get_embedding_request (text : List Char) : Except String (List Char) :=
  if text = [] ∨ stripChars text = [] then
    Except.error "Empty text provided for embedding"
  else
    Except.ok (queryRoleTag ++ stripChars text)

/-! ## Segmenter (text_chunker.py `chunk_pages_with_metadata`) -/

/-- A chunk record as built by `chunk_pages_with_metadata`.
`start_pos`/`end_pos` are the Python ints `start`/`end` (offsets into the
text of the owning page; `end_pos` is not clamped to the page length). -/
structure Chunk where
  id : String
  text : List Char
  page_number : Nat
  start_pos : Int
  end_pos : Int
  source : String
deriving DecidableEq, Repr

/-- The stored text of a chunk: `f"search_document: {chunk_text.strip()}"`. -/
def chunkStoredText (chunk_text : List Char) : List Char :=
  docRoleTag ++ stripChars chunk_text

/-- The end position after the sentence-boundary refinement of the chunker:
slice the window, and if the right edge of the window is strictly inside the
page, look for the last match of `[.!?]\s+(?=[A-Z])` in the window and
snap to it when it lies within the final 150 characters. -/
def wsRunLen : List Char → Nat
  | [] => 0
  | c :: cs => if isWS c then wsRunLen cs + 1 else 0

/-- End position (`match.end()`) of a match of `[.!?]\s+(?=[A-Z])`
starting at position `i` of `s`, if any: a terminal-punctuation char,
followed by a maximal nonempty whitespace run, followed by a capital
letter (lookahead, not consumed). -/
def matchEndAt (s : List Char) (i : Nat) : Option Nat :=
  match s.drop i with
  | [] => none
  | c :: rest =>
    if isPunct c then
      let m := wsRunLen rest
      if 1 ≤ m then
        match rest.drop m with
        | d :: _ => if isUpperAZ d then some (i + 1 + m) else none
        | [] => none
      else none
    else none

/-- `matches = list(re.finditer(pattern, chunk_text)); matches[-1].end()`:
the end position of the last regex match, if any.  (Matches of this
pattern can never overlap, so scanning every start position is equivalent
to `finditer`.) -/
def lastMatchEnd (s : List Char) : Option Nat :=
  (List.range s.length).foldl
    (fun acc i =>
      match matchEndAt s i with
      | some e => some e
      | none => acc)
    none

/-- The `end` value used for a window starting at `start`: `start + chunk_size`,
snapped back to the last sentence boundary when one is found in the final
150 characters of the window (only attempted while `end < text_length`). -/
def snapEnd (text : List Char) (chunk_size start : Int) : Int :=
  let e := start + chunk_size
  let ct := pySlice text start e
  if e < (text.length : Int) then
    match lastMatchEnd ct with
    | some sentence_end =>
      if (sentence_end : Int) > (ct.length : Int) - 150 then
        start + (sentence_end : Int)
      else e
    | none => e
  else e

/-- The chunk record appended for the window `[start, e)` of page `pn`. -/
def mkChunk (text : List Char) (pn cid : Nat) (start e : Int) : Chunk :=
  { id := "chunk_" ++ toString cid
    text := chunkStoredText (pySlice text start e)
    page_number := pn
    start_pos := start
    end_pos := e
    source := "Page " ++ toString pn }

/-- The per-page `while start < text_length` loop of
`chunk_pages_with_metadata`, with explicit fuel: `none` means the fuel ran
out before the loop finished (in particular, a genuinely non-terminating
loop yields `none` for every fuel).  Returns the chunks of this page
together with the next `chunk_id`. -/
def chunkLoop (chunk_size overlap : Int) (pn : Nat) (text : List Char) :
    Nat → Int → Nat → Option (List Chunk × Nat)
  | 0, _, _ => none
  | fuel + 1, start, cid =>
    if start < (text.length : Int) then
      let e := snapEnd text chunk_size start
      let c := mkChunk text pn cid start e
      if e - overlap ≥ (text.length : Int) then some ([c], cid + 1)
      else
        match chunkLoop chunk_size overlap pn text fuel (e - overlap) (cid + 1) with
        | some (rest, cid') => some (c :: rest, cid')
        | none => none
    else some ([], cid)

/-- A page record as produced by pdf_loader.py `load_pdf_with_pages`. -/
structure PageData where
  page_number : Nat
  text : List Char
deriving DecidableEq, Repr

/-- The `for page_data in pages_data` loop: chunk each page in order,
threading `chunk_id` through. -/
def chunkPagesGo (chunk_size overlap : Int) (fuel : Nat) :
    List PageData → Nat → Option (List Chunk)
  | [], _ => some []
  | p :: ps, cid =>
    match chunkLoop chunk_size overlap p.page_number p.text fuel 0 cid with
    | none => none
    | some (cs, cid') =>
      match chunkPagesGo chunk_size overlap fuel ps cid' with
      | none => none
      | some rest => some (cs ++ rest)

/-- text_chunker.py `chunk_pages_with_metadata(pages_data, chunk_size, overlap)`
with explicit fuel for the per-page while loop. -/
def chunk_pages_with_metadata (pages_data : List PageData)
    (chunk_size overlap : Int) (fuel : Nat) : Option (List Chunk) :=
  chunkPagesGo chunk_size overlap fuel pages_data 0

/-! ## PDF loader (pdf_loader.py `load_pdf_with_pages`) -/

/-- The `for page_num in range(len(doc))` loop of `load_pdf_with_pages`:
pages whose text strips to empty are skipped (`if text.strip():`); kept
pages get 1-based page numbers and stripped text. -/
def loadPagesGo : Nat → List (List Char) → List PageData
  | _, [] => []
  | idx, t :: ts =>
    if stripChars t = [] then loadPagesGo (idx + 1) ts
    else { page_number := idx + 1, text := stripChars t } :: loadPagesGo (idx + 1) ts

/-- pdf_loader.py `load_pdf_with_pages`, with the PDF abstracted to its
list of per-page raw texts. -/
def load_pdf_with_pages (raw_pages : List (List Char)) : List PageData :=
  loadPagesGo 0 raw_pages

/-! ## Retriever (backend/new_rag_system.py `_find_relevant_sections`) -/

/-- A retrieval candidate: the raw vector distance of a queried chunk together
with its computed relevance score. -/
structure RetrievalCandidate where
  distance : ℚ
  relevance : ℚ
deriving DecidableEq, Repr

/-- Modelled from the spec: the full body of `_find_relevant_sections`
(backend/new_rag_system.py) is absent from the repository — the
documentation only states its behavior ("Only chunks with relevance_score
> 0.2 are kept", "Top 6 most relevant chunks are returned") and the spec
gives the contract `retrieve(question, top_k=6, min_relevance=0.2) ->
list<RetrievalCandidate>` sorted by relevance descending.  Given the raw
distances returned by the vector index, convert each to a relevance
score, drop candidates at or below `min_relevance`, sort by relevance
descending and return at most `top_k`. -/
def retrieve (distances : List ℚ) (top_k : Nat) (min_relevance : ℚ) :
    List RetrievalCandidate :=
  let cands := distances.map (fun d => { distance := d, relevance := relevance d })
  let kept := cands.filter (fun c => decide (min_relevance < c.relevance))
  (kept.insertionSort (fun a b => b.relevance ≤ a.relevance)).take top_k

instance : IsTotal RetrievalCandidate (fun a b => b.relevance ≤ a.relevance) :=
  ⟨fun a b => le_total b.relevance a.relevance⟩

instance : IsTrans RetrievalCandidate (fun a b => b.relevance ≤ a.relevance) :=
  ⟨fun _ _ _ h1 h2 => le_trans h2 h1⟩

/-- The page text of the segmentation scenario of the spec. -/
def scenarioPageText : List Char :=
  "The patient has diabetes. The treatment is insulin. The dosage is 10mg.".data

/-- A 20-character page with no sentence punctuation, used to exercise the
chunker with `chunk_size = overlap = 10`. -/
def flatPageText : List Char := List.replicate 20 'a'

/-- Expected chunk list for segmenting the page `"abcdefgh"` with
`chunk_size=5`, `overlap=2`. -/
def c3ExampleChunks : List Chunk :=
  [mkChunk "abcdefgh".data 1 0 0 5,
   mkChunk "abcdefgh".data 1 1 3 8,
   mkChunk "abcdefgh".data 1 2 6 11]

/-! ## C1: extraction confidence -/

/-- C1: for all source/evidence counts, the extraction confidence
`min(0.95, 0.70 + min(0.20, s*0.04) + min(0.10, e*0.02))` lies in
`[0.70, 0.95]`, is monotonically non-decreasing in `s` and in `e`,
saturates at `0.95` once `s ≥ 5` and `e ≥ 5`, and equals exactly `0.88`
at `s = 3, e = 3`. -/
theorem c1_extraction_confidence :
    (∀ s e : ℕ, 0.7 ≤ extraction_confidence s e ∧ extraction_confidence s e ≤ 0.95) ∧
    (∀ s t e : ℕ, s ≤ t → extraction_confidence s e ≤ extraction_confidence t e) ∧
    (∀ s e f : ℕ, e ≤ f → extraction_confidence s e ≤ extraction_confidence s f) ∧
    (∀ s e : ℕ, 5 ≤ s → 5 ≤ e → extraction_confidence s e = 0.95) ∧
    extraction_confidence 3 3 = 0.88 := by
  refine ⟨fun s e => ⟨?_, min_le_left _ _⟩, fun s t e h => ?_, fun s e f h => ?_,
    fun s e hs he => ?_, ?_⟩
  · simp only [extraction_confidence]
    have h1 : (0 : ℚ) ≤ min 0.2 ((s : ℚ) * 0.04) := le_min (by norm_num) (by positivity)
    have h2 : (0 : ℚ) ≤ min 0.1 ((e : ℚ) * 0.02) := le_min (by norm_num) (by positivity)
    exact le_min (by norm_num) (by linarith)
  · simp only [extraction_confidence]
    have hst : (s : ℚ) ≤ (t : ℚ) := by exact_mod_cast h
    have hb : min 0.2 ((s : ℚ) * 0.04) ≤ min 0.2 ((t : ℚ) * 0.04) :=
      min_le_min le_rfl (by nlinarith)
    exact min_le_min le_rfl (by linarith)
  · simp only [extraction_confidence]
    have hef : (e : ℚ) ≤ (f : ℚ) := by exact_mod_cast h
    have hb : min 0.1 ((e : ℚ) * 0.02) ≤ min 0.1 ((f : ℚ) * 0.02) :=
      min_le_min le_rfl (by nlinarith)
    exact min_le_min le_rfl (by linarith)
  · simp only [extraction_confidence]
    have hs5 : (5 : ℚ) ≤ (s : ℚ) := by exact_mod_cast hs
    have he5 : (5 : ℚ) ≤ (e : ℚ) := by exact_mod_cast he
    rw [min_eq_left (by nlinarith : (0.2 : ℚ) ≤ (s : ℚ) * 0.04),
      min_eq_left (by nlinarith : (0.1 : ℚ) ≤ (e : ℚ) * 0.02)]
    norm_num
  · simp only [extraction_confidence]
    norm_num

/-- Witness for C1 at concrete counts. -/
theorem c1_extraction_confidence_witness :
    extraction_confidence 1 0 ≤ extraction_confidence 2 0 ∧
    extraction_confidence 5 5 = 0.95 :=
  ⟨c1_extraction_confidence.2.1 1 2 0 (by decide),
   c1_extraction_confidence.2.2.2.1 5 5 (by decide) (by decide)⟩

/-! ## C2: relevance transform -/

/-- C2: the distance-to-relevance transform `max(0, (1.2 - d)/1.2)` lies
in `[0, 1]` for `d ≥ 0`, maps `0` to `1`, maps `1.2` to `0`, and is `0`
for every `d ≥ 1.2`. -/
theorem c2_relevance_transform :
    (∀ d : ℚ, 0 ≤ d → 0 ≤ relevance d ∧ relevance d ≤ 1) ∧
    relevance 0 = 1 ∧
    relevance 1.2 = 0 ∧
    (∀ d : ℚ, 1.2 ≤ d → relevance d = 0) := by
  refine ⟨fun d hd => ⟨le_max_left _ _, ?_⟩, ?_, ?_, fun d hd => ?_⟩
  · simp only [relevance]
    refine max_le (by norm_num) ?_
    rw [div_le_one (by norm_num)]
    linarith
  · simp only [relevance]
    rw [max_eq_right (by norm_num : (0 : ℚ) ≤ (1.2 - 0) / 1.2)]
    norm_num
  · simp only [relevance]
    norm_num
  · simp only [relevance]
    rw [max_eq_left ?_]
    apply div_nonpos_of_nonpos_of_nonneg
    · linarith
    · norm_num

/-- Witness for C2 at a concrete distance. -/
theorem c2_relevance_transform_witness :
    0 ≤ relevance 0.3 ∧ relevance 0.3 ≤ 1 ∧ relevance 2 = 0 :=
  ⟨(c2_relevance_transform.1 0.3 (by norm_num)).1,
   (c2_relevance_transform.1 0.3 (by norm_num)).2,
   c2_relevance_transform.2.2.2 2 (by norm_num)⟩

/-! ## C5: direct Q&A confidence -/

/-- C5: for every question whose retrieval returns at least one
candidate, the answer confidence `1 - top_distance` computed by the code
already lies in `[0, 1]` and equals the clamped value described by the
spec: a surviving candidate has relevance above `0.2`, so its distance
is below `0.96`, and the top (best-match) distance is at most that,
making the clamp a no-op.  `d0` is the top distance: a member of the
queried distances, minimal among them, and nonnegative as every cosine
distance is. -/
theorem c5_qa_confidence_grounded (distances : List ℚ) (d0 : ℚ)
    (hmem : d0 ∈ distances) (htop : ∀ d ∈ distances, d0 ≤ d) (h0 : 0 ≤ d0)
    (hret : retrieve distances 6 0.2 ≠ []) :
    qa_confidence d0 = qa_confidence_clamped_spec d0 ∧
    0 ≤ qa_confidence d0 ∧ qa_confidence d0 ≤ 1 := by
  obtain ⟨c, hc⟩ := List.exists_mem_of_ne_nil _ hret
  have h1 : c ∈ (((distances.map
      (fun d => ({ distance := d, relevance := relevance d } : RetrievalCandidate))).filter
        (fun c => decide (0.2 < c.relevance))).insertionSort
          (fun a b => b.relevance ≤ a.relevance)) :=
    List.take_subset 6 _ hc
  have h2 := (List.perm_insertionSort
    (fun a b : RetrievalCandidate => b.relevance ≤ a.relevance) _).mem_iff.mp h1
  have h3 := List.mem_filter.mp h2
  obtain ⟨d, hd, rfl⟩ := List.mem_map.mp h3.1
  have h4 : (0.2 : ℚ) < relevance d := of_decide_eq_true h3.2
  have h5 : d < 0.96 := by
    simp only [relevance] at h4
    rcases lt_max_iff.mp h4 with h | h
    · norm_num at h
    · rw [lt_div_iff₀ (by norm_num)] at h
      linarith
  have h6 : d0 < 1 := lt_of_le_of_lt (htop d hd) (by linarith)
  refine ⟨?_, by simp only [qa_confidence]; linarith, by simp only [qa_confidence]; linarith⟩
  simp only [qa_confidence, qa_confidence_clamped_spec]
  rw [max_eq_right (by linarith : (0 : ℚ) ≤ 1 - d0),
    min_eq_right (by linarith : (1 : ℚ) - d0 ≤ 1)]

/-- Witness for C5: a lone candidate at distance 0.5 survives retrieval
(relevance 7/12 > 0.2), and the confidence 0.5 equals its clamped value
and lies in [0, 1]. -/
theorem c5_qa_confidence_grounded_witness :
    qa_confidence 0.5 = qa_confidence_clamped_spec 0.5 ∧
    0 ≤ qa_confidence 0.5 ∧ qa_confidence 0.5 ≤ 1 :=
  c5_qa_confidence_grounded [0.5] 0.5 (List.mem_singleton.mpr rfl)
    (by intro d hd; rcases List.mem_singleton.mp hd with rfl; exact le_refl _)
    (by norm_num)
    (by
      have hrel : (0.2 : ℚ) < relevance 0.5 := by
        simp only [relevance]
        rw [max_eq_right (by norm_num : (0 : ℚ) ≤ (1.2 - 0.5) / 1.2)]
        norm_num
      simp [retrieve, List.filter_cons, hrel, List.insertionSort, List.orderedInsert])

/-! ## C10: empty-text rejection in the embedding gateway -/

/-- C10: for every empty or whitespace-only input, `get_embedding` raises
(`Except.error`) in its validation phase, before any request is sent to
the provider (no `Except.ok` prompt is ever produced). -/
theorem c10_empty_text_rejected (text : List Char) (h : stripChars text = []) :
    get_embedding_request text = Except.error "Empty text provided for embedding" := by
  simp only [get_embedding_request]
  rw [if_pos (Or.inr h)]

/-- Witness for C10 on a whitespace-only input. -/
theorem c10_empty_text_rejected_witness :
    stripChars "   ".data = [] ∧
    get_embedding_request "   ".data = Except.error "Empty text provided for embedding" :=
  ⟨by decide, c10_empty_text_rejected "   ".data (by decide)⟩

/-! ## Chunker loop lemmas -/

/-- Unfolding lemma: the loop with no fuel left. -/
theorem chunkLoop_zero (cs ov : Int) (pn : Nat) (text : List Char) (s : Int) (c : Nat) :
    chunkLoop cs ov pn text 0 s c = none := rfl

/-- Unfolding lemma: one iteration of the loop. -/
theorem chunkLoop_succ (cs ov : Int) (pn : Nat) (text : List Char) (n : Nat) (s : Int) (c : Nat) :
    chunkLoop cs ov pn text (n + 1) s c =
      if s < (text.length : Int) then
        if snapEnd text cs s - ov ≥ (text.length : Int) then
          some ([mkChunk text pn c s (snapEnd text cs s)], c + 1)
        else
          match chunkLoop cs ov pn text n (snapEnd text cs s - ov) (c + 1) with
          | some (rest, cid2) => some (mkChunk text pn c s (snapEnd text cs s) :: rest, cid2)
          | none => none
      else some ([], c) := rfl

/-- If the window starting at `start` produces a next start equal to
`start` itself, the while loop never terminates: it yields `none` at
every fuel. -/
theorem chunkLoop_none_of_fixed (cs ov : Int) (pn : Nat) (text : List Char) (start : Int)
    (h1 : start < (text.length : Int)) (h2 : snapEnd text cs start - ov = start) :
    ∀ fuel cid, chunkLoop cs ov pn text fuel start cid = none := by
  intro fuel
  induction fuel with
  | zero => intro cid; exact chunkLoop_zero cs ov pn text start cid
  | succ n ih =>
    intro cid
    rw [chunkLoop_succ, if_pos h1, h2, if_neg (not_le.mpr h1), ih (cid + 1)]

/-- Every chunk the per-page loop emits carries the number of that page. -/
theorem chunkLoop_page_number (cs ov : Int) (pn : Nat) (text : List Char) :
    ∀ fuel start cid chunks cid2,
      chunkLoop cs ov pn text fuel start cid = some (chunks, cid2) →
      ∀ c ∈ chunks, c.page_number = pn := by
  intro fuel
  induction fuel with
  | zero =>
    intro start cid chunks cid2 h
    rw [chunkLoop_zero] at h
    exact absurd h (by simp)
  | succ n ih =>
    intro start cid chunks cid2 h c hc
    rw [chunkLoop_succ] at h
    split at h
    · split at h
      · simp only [Option.some.injEq, Prod.mk.injEq] at h
        obtain ⟨h3, h4⟩ := h
        subst h3
        rcases List.mem_singleton.mp hc with rfl
        rfl
      · split at h
        next rest cid3 heq =>
          simp only [Option.some.injEq, Prod.mk.injEq] at h
          obtain ⟨h3, h4⟩ := h
          subst h3
          rcases List.mem_cons.mp hc with rfl | hmem
          · rfl
          · exact ih _ _ _ _ heq c hmem
        next => exact absurd h (by simp)
    · simp only [Option.some.injEq, Prod.mk.injEq] at h
      obtain ⟨h3, h4⟩ := h
      subst h3
      exact absurd hc (by simp)

/-- The first chunk the loop emits starts at the current `start` value of the loop. -/
theorem chunkLoop_head_start (cs ov : Int) (pn : Nat) (text : List Char)
    (fuel : Nat) (start : Int) (cid : Nat) (c : Chunk) (rest : List Chunk) (cid2 : Nat)
    (h : chunkLoop cs ov pn text fuel start cid = some (c :: rest, cid2)) :
    c.start_pos = start := by
  cases fuel with
  | zero => rw [chunkLoop_zero] at h; exact absurd h (by simp)
  | succ n =>
    rw [chunkLoop_succ] at h
    split at h
    · split at h
      · simp only [Option.some.injEq, Prod.mk.injEq, List.cons.injEq] at h
        rw [← h.1.1]
        rfl
      · split at h
        next rest2 cid3 heq =>
          simp only [Option.some.injEq, Prod.mk.injEq, List.cons.injEq] at h
          rw [← h.1.1]
          rfl
        next => exact absurd h (by simp)
    · simp only [Option.some.injEq, Prod.mk.injEq] at h
      exact absurd h.1 (by simp)

/-! ## C3: chunk overlap invariant -/

/-- C3: among the chunks the Segmenter produces from one page, the
`start_pos` of each chunk is exactly the `end_pos` of the previous chunk
minus the `overlap` parameter — also when the previous end was snapped back
to a sentence boundary, since the next start is computed from the snapped
end. -/
theorem c3_chunk_overlap (cs ov : Int) (pn : Nat) (text : List Char) :
    ∀ (fuel : Nat) (start : Int) (cid : Nat) (chunks : List Chunk) (cid2 : Nat),
      chunkLoop cs ov pn text fuel start cid = some (chunks, cid2) →
      ∀ (i : Nat) (h1 : i + 1 < chunks.length) (h0 : i < chunks.length),
        (chunks.get ⟨i + 1, h1⟩).start_pos = (chunks.get ⟨i, h0⟩).end_pos - ov := by
  intro fuel
  induction fuel with
  | zero =>
    intro start cid chunks cid2 h
    rw [chunkLoop_zero] at h
    exact absurd h (by simp)
  | succ n ih =>
    intro start cid chunks cid2 h i h1 h0
    rw [chunkLoop_succ] at h
    split at h
    · split at h
      · simp only [Option.some.injEq, Prod.mk.injEq] at h
        obtain ⟨h3, _⟩ := h
        subst h3
        simp at h1
      · split at h
        next rest cid3 heq =>
          simp only [Option.some.injEq, Prod.mk.injEq] at h
          obtain ⟨h3, _⟩ := h
          subst h3
          cases i with
          | zero =>
            cases rest with
            | nil => simp at h1
            | cons r0 rest2 =>
              have hr0 : r0.start_pos = snapEnd text cs start - ov :=
                chunkLoop_head_start cs ov pn text n _ _ r0 rest2 cid3 heq
              simpa using hr0
          | succ j =>
            have hj1 : j + 1 < rest.length := by
              simpa using h1
            have hj0 : j < rest.length := by
              omega
            have := ih _ _ _ _ heq j hj1 hj0
            simpa using this
        next => exact absurd h (by simp)
    · simp only [Option.some.injEq, Prod.mk.injEq] at h
      obtain ⟨h3, _⟩ := h
      subst h3
      simp at h1

/-- Witness for C3: segmenting the page `"abcdefgh"` with `chunk_size=5`,
`overlap=2` yields three chunks at positions `[0,5)`, `[3,8)`, `[6,11)`,
and consecutive starts equal the previous end minus the overlap. -/
theorem c3_chunk_overlap_witness :
    chunkLoop 5 2 1 "abcdefgh".data 10 0 0 = some (c3ExampleChunks, 3) ∧
    (c3ExampleChunks.get ⟨1, by decide⟩).start_pos =
      (c3ExampleChunks.get ⟨0, by decide⟩).end_pos - 2 :=
  ⟨by decide,
   c3_chunk_overlap 5 2 1 "abcdefgh".data 10 0 0 c3ExampleChunks 3 (by decide)
     0 (by decide) (by decide)⟩

/-! ## C4: the chunking loop does not always terminate -/

/-- C4 (refuting the termination guarantee): on a 20-character page with
no sentence punctuation and `chunk_size = overlap = 10`, the snapped
start never advances (`end - overlap` returns to the previous `start`),
and the only guard in the loop (`if start >= text_length: break`) never
fires — the per-page while loop runs forever, modelled here as `none`
for every fuel. -/
theorem c4_chunker_loop_diverges :
    ∀ fuel : Nat,
      chunk_pages_with_metadata
        [{ page_number := 1, text := flatPageText }] 10 10 fuel = none := by
  intro fuel
  have h := chunkLoop_none_of_fixed 10 10 1 flatPageText 0 (by decide) (by decide) fuel 0
  simp [chunk_pages_with_metadata, chunkPagesGo, h]

/-! ## C7: the segmentation scenario of the spec -/

/-- C7 (refuting the three-chunk scenario): on the page text
`"The patient has diabetes. The treatment is insulin. The dosage is 10mg."`
with `chunk_size=30, overlap=10`, the first window snaps to position 26
and restarts at 16; from position 16 every window snaps back to 26, so
the next start is again 16 and the loop never terminates (`none` for
every fuel) — it does not produce three chunks reconstructing the page. -/
theorem c7_scenario_diverges :
    ∀ fuel : Nat,
      chunk_pages_with_metadata
        [{ page_number := 1, text := scenarioPageText }] 30 10 fuel = none := by
  have hfix : ∀ f cid, chunkLoop 30 10 1 scenarioPageText f 16 cid = none :=
    chunkLoop_none_of_fixed 30 10 1 scenarioPageText 16 (by decide) (by decide)
  intro fuel
  cases fuel with
  | zero => rfl
  | succ n =>
    have hL : chunkLoop 30 10 1 scenarioPageText (n + 1) 0 0 = none := by
      have hstep : chunkLoop 30 10 1 scenarioPageText (n + 1) 0 0 =
          match chunkLoop 30 10 1 scenarioPageText n 16 1 with
          | some (rest, cid2) => some (mkChunk scenarioPageText 1 0 0 26 :: rest, cid2)
          | none => none := by
        rw [chunkLoop_succ, if_pos (by decide),
          show snapEnd scenarioPageText 30 0 = 26 from by decide,
          if_neg (by decide)]
        norm_num
      rw [hstep, hfix n 1]
    simp [chunk_pages_with_metadata, chunkPagesGo, hL]

/-! ## C8: blank pages produce no chunks -/

/-- Every chunk produced by the page loop comes from one of the input
pages (it carries the number of that page). -/
theorem chunkPagesGo_page_of_mem (cs ov : Int) (fuel : Nat) :
    ∀ (ps : List PageData) (cid : Nat) (chunks : List Chunk),
      chunkPagesGo cs ov fuel ps cid = some chunks →
      ∀ c ∈ chunks, ∃ p ∈ ps, c.page_number = p.page_number := by
  intro ps
  induction ps with
  | nil =>
    intro cid chunks h c hc
    simp only [chunkPagesGo, Option.some.injEq] at h
    subst h
    exact absurd hc (by simp)
  | cons p ps ih =>
    intro cid chunks h c hc
    simp only [chunkPagesGo] at h
    split at h
    next => exact absurd h (by simp)
    next cs1 cid2 heq1 =>
      split at h
      next => exact absurd h (by simp)
      next rest heq2 =>
        simp only [Option.some.injEq] at h
        subst h
        rcases List.mem_append.mp hc with hmem | hmem
        · exact ⟨p, List.mem_cons_self p ps,
            chunkLoop_page_number cs ov p.page_number p.text fuel 0 cid cs1 cid2 heq1 c hmem⟩
        · obtain ⟨q, hq, hcq⟩ := ih cid2 rest heq2 c hmem
          exact ⟨q, List.mem_cons_of_mem p hq, hcq⟩

/-- Pages kept by the loader have page numbers strictly above the running
index. -/
theorem loadPagesGo_lb :
    ∀ (ts : List (List Char)) (idx : Nat) (p : PageData),
      p ∈ loadPagesGo idx ts → idx + 1 ≤ p.page_number := by
  intro ts
  induction ts with
  | nil => intro idx p hp; exact absurd hp (by simp [loadPagesGo])
  | cons t ts ih =>
    intro idx p hp
    simp only [loadPagesGo] at hp
    split at hp
    · have := ih (idx + 1) p hp
      omega
    · rcases List.mem_cons.mp hp with rfl | hmem
      · exact le_rfl
      · have := ih (idx + 1) p hmem
        omega

/-- A raw page whose text strips to empty is skipped by the loader: no
loaded page carries its (1-based) number. -/
theorem loadPagesGo_blank_skipped :
    ∀ (ts : List (List Char)) (idx j : Nat) (hj : j < ts.length),
      stripChars (ts.get ⟨j, hj⟩) = [] →
      ∀ p ∈ loadPagesGo idx ts, p.page_number ≠ idx + j + 1 := by
  intro ts
  induction ts with
  | nil => intro idx j hj; exact absurd hj (by simp)
  | cons t ts ih =>
    intro idx j hj hws p hp
    simp only [loadPagesGo] at hp
    cases j with
    | zero =>
      simp only [List.get] at hws
      rw [if_pos hws] at hp
      have := loadPagesGo_lb ts (idx + 1) p hp
      omega
    | succ j2 =>
      have hj2 : j2 < ts.length := by simpa using hj
      have hws2 : stripChars (ts.get ⟨j2, hj2⟩) = [] := by
        simpa using hws
      split at hp
      · have := ih (idx + 1) j2 hj2 hws2 p hp
        omega
      · rcases List.mem_cons.mp hp with rfl | hmem
        · simp only []
          omega
        · have := ih (idx + 1) j2 hj2 hws2 p hmem
          omega

/-- C8: a page whose raw text is empty or whitespace-only contributes no
chunk to the output of the segmentation pipeline: the loader skips it
(`if text.strip():`), so no chunk carries its page number, and the
pipeline still returns a normal result (`some`) rather than an error. -/
theorem c8_blank_page_zero_chunks (raw_pages : List (List Char)) (cs ov : Int)
    (fuel : Nat) (chunks : List Chunk) (i : Nat) (hi : i < raw_pages.length)
    (hws : stripChars (raw_pages.get ⟨i, hi⟩) = [])
    (h : chunk_pages_with_metadata (load_pdf_with_pages raw_pages) cs ov fuel = some chunks) :
    ∀ c ∈ chunks, c.page_number ≠ i + 1 := by
  intro c hc
  obtain ⟨p, hp, hpc⟩ :=
    chunkPagesGo_page_of_mem cs ov fuel (load_pdf_with_pages raw_pages) 0 chunks h c hc
  have hne := loadPagesGo_blank_skipped raw_pages 0 i hi hws p hp
  rw [hpc]
  omega

/-- Witness for C8: a two-page document whose first page is whitespace-only
segments to a single chunk, and that chunk is not attributed to page 1. -/
theorem c8_blank_page_zero_chunks_witness :
    chunk_pages_with_metadata (load_pdf_with_pages ["   ".data, "Hello".data])
        1000 200 1 =
      some [mkChunk "Hello".data 2 0 0 1000] ∧
    ∀ c ∈ [mkChunk "Hello".data 2 0 0 1000], c.page_number ≠ 0 + 1 :=
  ⟨by decide,
   c8_blank_page_zero_chunks ["   ".data, "Hello".data] 1000 200 1
     [mkChunk "Hello".data 2 0 0 1000] 0 (by decide) (by decide) (by decide)⟩

/-! ## C6: the retrieval contract -/

/-- C6: `retrieve` keeps only candidates with relevance strictly above
`min_relevance = 0.2`, returns at most `top_k = 6` of them sorted by
relevance in descending order, and returns the empty list (not an error)
when no candidate survives the filter. -/
theorem c6_retrieve_contract (distances : List ℚ) :
    (∀ c ∈ retrieve distances 6 0.2, 0.2 < c.relevance) ∧
    (retrieve distances 6 0.2).length ≤ 6 ∧
    List.Sorted (fun a b => b.relevance ≤ a.relevance) (retrieve distances 6 0.2) ∧
    ((∀ d ∈ distances, relevance d ≤ 0.2) → retrieve distances 6 0.2 = []) := by
  refine ⟨fun c hc => ?_, ?_, ?_, fun hall => ?_⟩
  · have h1 : c ∈ (((distances.map
        (fun d => ({ distance := d, relevance := relevance d } : RetrievalCandidate))).filter
          (fun c => decide (0.2 < c.relevance))).insertionSort
            (fun a b => b.relevance ≤ a.relevance)) :=
      List.take_subset 6 _ hc
    have h2 := (List.perm_insertionSort
      (fun a b : RetrievalCandidate => b.relevance ≤ a.relevance) _).mem_iff.mp h1
    have h3 := (List.mem_filter.mp h2).2
    exact of_decide_eq_true h3
  · simp only [retrieve]
    rw [List.length_take]
    exact min_le_left _ _
  · have hs := List.sorted_insertionSort (fun a b => b.relevance ≤ a.relevance)
      ((distances.map
        (fun d => ({ distance := d, relevance := relevance d } : RetrievalCandidate))).filter
          (fun c => decide (0.2 < c.relevance)))
    exact List.Pairwise.sublist (List.take_sublist 6 _) hs
  · simp only [retrieve]
    have hfil : ((distances.map
        (fun d => ({ distance := d, relevance := relevance d } : RetrievalCandidate))).filter
          (fun c => decide (0.2 < c.relevance))) = [] := by
      rw [List.filter_eq_nil_iff]
      intro c hc
      obtain ⟨d, hd, rfl⟩ := List.mem_map.mp hc
      simp only [decide_eq_true_eq, not_lt]
      exact hall d hd
    rw [hfil]
    rfl

/-- Witness for C6: a lone candidate at distance 2 has relevance 0 and is
filtered out, leaving the empty list. -/
theorem c6_retrieve_contract_witness : retrieve [(2 : ℚ)] 6 0.2 = [] :=
  (c6_retrieve_contract [2]).2.2.2 (by
    intro d hd
    rcases List.mem_singleton.mp hd with rfl
    simp only [relevance]
    rw [max_eq_left (by norm_num : ((1.2 : ℚ) - 2) / 1.2 ≤ 0)]
    norm_num)

/-! ## C9: role tags of embedding-gateway inputs -/

/-- `str.strip()` is first-drop-then-right-drop. -/
theorem stripChars_eq_rdrop (s : List Char) :
    stripChars s = (s.dropWhile isWS).rdropWhile isWS := rfl

/-- Stripping the stored text of a chunk is a no-op: the document tag starts
with a non-whitespace character and the stripped content (when nonempty)
ends with one. -/
theorem stripChars_tagged (content : List Char) (hc : stripChars content ≠ []) :
    stripChars (docRoleTag ++ stripChars content) = docRoleTag ++ stripChars content := by
  have h1 : (docRoleTag ++ stripChars content).dropWhile isWS =
      docRoleTag ++ stripChars content := by
    show ('s' :: ("earch_document: ".data ++ stripChars content)).dropWhile isWS = _
    rw [List.dropWhile_cons, if_neg (by decide)]
    rfl
  rw [stripChars_eq_rdrop, h1, List.rdropWhile_eq_self_iff]
  intro hl
  rw [List.getLast_append' docRoleTag (stripChars content) hc]
  exact List.rdropWhile_last_not isWS (content.dropWhile isWS) hc

/-- C9 counterexample: embedding the stored chunk text built by the
Segmenter from the content `"Hello"` sends the prompt
`"search_query: search_document: Hello"` — the request for a stored
document chunk does not begin with the document-role prefix (it begins
with the query-role prefix that `get_embedding` applies to every call,
regardless of call-site role). -/
theorem c9_counterexample :
    get_embedding_request (chunkStoredText "Hello".data) =
      Except.ok ("search_query: search_document: Hello".data) ∧
    ("search_query: search_document: Hello".data).take docRoleTag.length ≠ docRoleTag := by
  constructor
  · rfl
  · decide

/-- C9 (amended): `get_embedding` applies the query-role tag
`"search_query: "` to every input regardless of call-site role; the
Segmenter stores the document-role tag `"search_document: "` inside the
chunk text, so a retrieval query is sent as `"search_query: <question>"`
while a stored chunk is sent as `"search_query: search_document:
<content>"`; the two roles therefore still receive different effective
inputs for the same underlying content. -/
theorem c9_role_tags (question content : List Char)
    (hq : stripChars question ≠ []) (hc : stripChars content ≠ []) :
    get_embedding_request question = Except.ok (queryRoleTag ++ stripChars question) ∧
    (chunkStoredText content).take docRoleTag.length = docRoleTag ∧
    get_embedding_request (chunkStoredText content) =
      Except.ok (queryRoleTag ++ docRoleTag ++ stripChars content) ∧
    queryRoleTag ++ docRoleTag ++ stripChars content ≠
      queryRoleTag ++ stripChars content := by
  refine ⟨?_, ?_, ?_, ?_⟩
  · have hne : ¬(question = [] ∨ stripChars question = []) := by
      rintro (h | h)
      · exact hq (by rw [h]; rfl)
      · exact hq h
    simp only [get_embedding_request]
    rw [if_neg hne]
  · show (docRoleTag ++ stripChars content).take docRoleTag.length = docRoleTag
    exact List.take_left docRoleTag (stripChars content)
  · have hne : ¬(chunkStoredText content = [] ∨
        stripChars (chunkStoredText content) = []) := by
      rintro (h | h)
      · have := congrArg List.length h
        simp [chunkStoredText, docRoleTag] at this
      · rw [show chunkStoredText content = docRoleTag ++ stripChars content from rfl,
          stripChars_tagged content hc] at h
        have := congrArg List.length h
        simp [docRoleTag] at this
    simp only [get_embedding_request]
    rw [if_neg hne,
      show chunkStoredText content = docRoleTag ++ stripChars content from rfl,
      stripChars_tagged content hc, List.append_assoc]
  · intro heq
    rw [List.append_assoc] at heq
    have h2 := List.append_cancel_left heq
    have h3 := congrArg List.length h2
    simp [docRoleTag] at h3
    omega

/-- Witness for the amended C9 theorem on concrete query and content. -/
theorem c9_role_tags_witness :
    get_embedding_request "What".data = Except.ok (queryRoleTag ++ stripChars "What".data) ∧
    (chunkStoredText "Hello".data).take docRoleTag.length = docRoleTag :=
  ⟨(c9_role_tags "What".data "Hello".data (by decide) (by decide)).1,
   (c9_role_tags "What".data "Hello".data (by decide) (by decide)).2.1⟩
